import Mathlib

/-!
# Event listeners and console processing of the server package

A shallow embedding of `server/listeners.go`: the disk space limiter, the
console output processor, the event dispatcher started by
`StartEventListeners`, the regular expression `stripAnsiRegex` and the line
matcher `onConsoleOutput`.

Calls into collaborators (environment, throttler, sinks, loggers) are recorded
in order in a trace of effects; what a collaborator answers is an argument of
the function that asks.  A goroutine started with `go` is recorded as an effect
carrying the task, and the body of the task is a function of its own.

Console lines are byte slices.  `bytes.Equal` compares them byte by byte, and
the regular expression reads them rune by rune as `utf8.DecodeRune` decodes
them, so that invalid UTF-8 is kept apart from the encoding of U+FFFD.
-/

set_option autoImplicit false

namespace server

/-! ## Data model -/

/-- The process states of package environment. -/
inductive ProcessState where
  | ProcessOfflineState
  | ProcessStartingState
  | ProcessRunningState
  | ProcessStoppingState
  deriving DecidableEq, Repr

open ProcessState

/-- A byte slice, or the bytes of a Go string: the list of its bytes, each a
number below 256. -/
abbrev Bytes := List Nat

/-- The payload of a resource event.  The type environment.Stats is declared
outside this file; its fields play no part in the listeners. -/
structure Stats where
  raw : Nat
  deriving DecidableEq, Repr

/-- The three docker image topics of `dockerEvents`. -/
inductive DockerTopic where
  | DockerImagePullStatus
  | DockerImagePullStarted
  | DockerImagePullCompleted
  deriving DecidableEq, Repr

/-- A goroutine started with `go`. -/
inductive Task where
  /-- The anonymous function of lines 71-86. -/
  | throttleStop
  /-- The call `s.onConsoleOutput(v)` of line 93. -/
  | onConsoleOutput (v : Bytes)
  deriving DecidableEq, Repr

/-- Calls into the collaborators of the server, in the order they are made. -/
inductive Effect where
  | SetState (st : ProcessState)
  | PublishConsoleOutputFromDaemon (msg : String)
  | WaitForStop (seconds : Nat) (terminate : Bool)
  | LogDebug (msg : String)
  /-- The debug entry of lines 189-192: the matcher and the line it matched. -/
  | LogMatch (matcher : String) (against : Bytes)
  | LogWarn (msg : String)
  | LogError (msg : String)
  /-- The call `t.Increment` of line 61. -/
  | Increment
  /-- The call `s.Throttler().Reset()` of line 118. -/
  | ThrottlerReset
  /-- A `go` statement. -/
  | Go (t : Task)
  | SinkPush (v : Bytes)
  | OnStateChange
  | SetStats (data : Stats)
  | PublishStats
  | PublishInstallOutput (data : String)
  deriving DecidableEq, Repr

/-- What a call of Environment.WaitForStop answers: the state the environment
is in when the call returns, and whether it returned an error. -/
structure WaitResult where
  state : ProcessState
  err : Bool
  deriving DecidableEq, Repr

/-- The throttler returned by `s.Throttler()`.  Its implementation is outside
this file, so its methods are taken as given over a state `σ`: Increment
answers the new state, whether the callback was invoked and whether an error
is returned. -/
structure Throttler (σ : Type) where
  Increment : σ → σ × Bool × Bool
  Throttled : σ → Bool
  Reset : σ → σ

/-- The server as the listeners see it: the state held by the environment, the
state of the throttler, and the effects produced so far. -/
structure World (σ : Type) where
  state : ProcessState
  throttle : σ
  trace : List Effect

variable {σ : Type}

/-- Record one effect. -/
def World.emit (w : World σ) (e : Effect) : World σ :=
  { w with trace := w.trace ++ [e] }

/-- The setter `s.Environment.SetState`. -/
def World.SetState (w : World σ) (st : ProcessState) : World σ :=
  { w with state := st, trace := w.trace ++ [Effect.SetState st] }

/-- The call `s.Environment.WaitForStop(seconds, terminate)`, answered by `r`. -/
def World.WaitForStop (w : World σ) (seconds : Nat) (terminate : Bool) (r : WaitResult) :
    World σ :=
  { w with state := r.state, trace := w.trace ++ [Effect.WaitForStop seconds terminate] }

/-! ## The disk space limiter (lines 23-52) -/

/-- A `sync.Once`: whether `Do` has already run its function. -/
structure Once where
  done : Bool
  deriving DecidableEq, Repr

/-- The limiter; the mutex only serialises `Reset` and the server is the world. -/
structure diskSpaceLimiter where
  o : Once
  deriving DecidableEq, Repr

/-- The constructor `newDiskLimiter`. -/
def newDiskLimiter : diskSpaceLimiter := { o := { done := false } }

/-- Reset the disk space limiter status. -/
def diskSpaceLimiter.Reset (_dsl : diskSpaceLimiter) : diskSpaceLimiter :=
  { o := { done := false } }

/-- The warning published by `Trigger`. -/
def diskSpaceWarning : String :=
  "Server is exceeding the assigned disk space limit, stopping process now."

/-- Trigger the disk space limiter; `wait` is what WaitForStop answers if it is
called. -/
def diskSpaceLimiter.Trigger (dsl : diskSpaceLimiter) (wait : WaitResult) (w : World σ) :
    diskSpaceLimiter × World σ :=
  if dsl.o.done then (dsl, w)
  else
    let w1 := w.emit (Effect.PublishConsoleOutputFromDaemon diskSpaceWarning)
    let w2 := w1.WaitForStop 60 true wait
    let w3 := if wait.err then
        w2.emit (Effect.LogError "failed to stop server after exceeding space limit!")
      else w2
    ({ o := { done := true } }, w3)

/-! ## The console output processor (lines 59-99) -/

/-- The goroutine of lines 71-86; `gracePeriod` is
`config.Get().Throttles.StopGracePeriod`. -/
def throttleStop (gracePeriod : Nat) (wait : WaitResult) (w : World σ) : World σ :=
  let w1 := w.emit (Effect.LogWarn "stopping server instance, violating throttle limits")
  let w2 := w1.emit (Effect.PublishConsoleOutputFromDaemon
    "Your server is being stopped for outputting too much data in a short period of time.")
  let w3 := w2.WaitForStop gracePeriod true wait
  if wait.err then
    let w4 := if w3.state ≠ ProcessOfflineState then w3.SetState ProcessRunningState else w3
    w4.emit (Effect.LogError "failed to terminate environment after triggering throttle")
  else w3

/-- The function `processConsoleOutputEvent`, up to the goroutines it starts. -/
def processConsoleOutputEvent (t : Throttler σ) (v : Bytes) (w : World σ) : World σ :=
  let r := t.Increment w.throttle
  let w1 : World σ := { w with throttle := r.1, trace := w.trace ++ [Effect.Increment] }
  let w2 := if r.2.1 then
      w1.emit (Effect.PublishConsoleOutputFromDaemon
        "Your server is outputting too much data and is being throttled.")
    else w1
  let w3 := if r.2.2 then
      if w2.state ≠ ProcessStoppingState then
        (w2.SetState ProcessStoppingState).emit (Effect.Go Task.throttleStop)
      else w2
    else w2
  let w4 := w3.emit (Effect.Go (Task.onConsoleOutput v))
  if !t.Throttled w4.throttle then w4.emit (Effect.SinkPush v) else w4

/-! ## The event dispatcher (lines 103-158) -/

/-- An event as received by the routing goroutine, by the channel it came
from. -/
inductive Event where
  | state (data : ProcessState)
  | stats (data : Stats)
  | docker (topic : DockerTopic) (data : String)
  deriving DecidableEq, Repr

/-- What the collaborators answer while one event is handled. -/
structure Answers where
  HasSpaceAvailable : Bool
  WaitForStop : WaitResult
  deriving DecidableEq, Repr

/-- The handler of one event, run to completion. -/
def handleEvent (t : Throttler σ) (l : diskSpaceLimiter) (w : World σ) (a : Answers) :
    Event → diskSpaceLimiter × World σ
  | Event.state data =>
    if data = ProcessStartingState then
      let w1 : World σ :=
        { w with throttle := t.Reset w.throttle, trace := w.trace ++ [Effect.ThrottlerReset] }
      (l.Reset, w1.emit Effect.OnStateChange)
    else (l, w.emit Effect.OnStateChange)
  | Event.stats data =>
    let w1 := w.emit (Effect.SetStats data)
    let r := if !a.HasSpaceAvailable then l.Trigger a.WaitForStop w1 else (l, w1)
    (r.1, r.2.emit Effect.PublishStats)
  | Event.docker topic data =>
    match topic with
    | DockerTopic.DockerImagePullStatus => (l, w.emit (Effect.PublishInstallOutput data))
    | DockerTopic.DockerImagePullStarted =>
      (l, w.emit (Effect.PublishConsoleOutputFromDaemon
        "Pulling Docker container image, this could take a few minutes to complete..."))
    | DockerTopic.DockerImagePullCompleted =>
      (l, w.emit (Effect.PublishConsoleOutputFromDaemon "Finished pulling Docker container image"))

/-- The routing loop, with each handler run to completion before the next event
is taken. -/
def eventLoop (t : Throttler σ) :
    diskSpaceLimiter → World σ → List (Event × Answers) → diskSpaceLimiter × World σ
  | l, w, [] => (l, w)
  | l, w, (e, a) :: rest =>
    let r := handleEvent t l w a e
    eventLoop t r.1 r.2 rest

/-- The function `StartEventListeners` followed by the events the dispatcher
receives. -/
def StartEventListeners (t : Throttler σ) (w : World σ) (evs : List (Event × Answers)) :
    diskSpaceLimiter × World σ :=
  eventLoop t newDiskLimiter
    (w.emit (Effect.LogDebug "registering event listeners: console, state, resources...")) evs

/-- Number of stop requests in a trace. -/
def stopRequests (tr : List Effect) : Nat :=
  tr.countP (fun e => match e with
    | Effect.WaitForStop _ _ => true
    | _ => false)

/-! ## Runes (package unicode/utf8)

Go's regexp package reads a byte slice rune by rune with `utf8.DecodeRune`; a
byte that starts no valid encoding is the rune U+FFFD of width 1. -/

/-- The rune `utf8.RuneError`. -/
def RuneError : Nat := 0xFFFD

/-- A continuation byte, 0x80 to 0xBF. -/
def isContinuation (b : Nat) : Bool := decide (0x80 ≤ b ∧ b ≤ 0xBF)

/-- The rest of `DecodeRune` behind a lead byte 0xC2 to 0xDF. -/
def decode2 (p0 : Nat) : Bytes → Nat × Nat
  | b1 :: _ => if isContinuation b1 then (p0 % 32 * 64 + b1 % 64, 2) else (RuneError, 1)
  | _ => (RuneError, 1)

/-- The rest of `DecodeRune` behind a lead byte 0xE0 to 0xEF. -/
def decode3 (p0 : Nat) : Bytes → Nat × Nat
  | b1 :: b2 :: _ =>
    if (if p0 = 0xE0 then 0xA0 else 0x80) ≤ b1 ∧ b1 ≤ (if p0 = 0xED then 0x9F else 0xBF)
        ∧ isContinuation b2 = true then
      (p0 % 16 * 4096 + b1 % 64 * 64 + b2 % 64, 3)
    else (RuneError, 1)
  | _ => (RuneError, 1)

/-- The rest of `DecodeRune` behind a lead byte 0xF0 to 0xF4. -/
def decode4 (p0 : Nat) : Bytes → Nat × Nat
  | b1 :: b2 :: b3 :: _ =>
    if (if p0 = 0xF0 then 0x90 else 0x80) ≤ b1 ∧ b1 ≤ (if p0 = 0xF4 then 0x8F else 0xBF)
        ∧ isContinuation b2 = true ∧ isContinuation b3 = true then
      (p0 % 8 * 262144 + b1 % 64 * 4096 + b2 % 64 * 64 + b3 % 64, 4)
    else (RuneError, 1)
  | _ => (RuneError, 1)

/-- The function `utf8.DecodeRune`: the first rune of a byte slice and its width
in bytes; `(RuneError, 0)` on the empty slice and `(RuneError, 1)` on an invalid
encoding. -/
def DecodeRune : Bytes → Nat × Nat
  | [] => (RuneError, 0)
  | p0 :: t =>
    if p0 < 0x80 then (p0, 1)
    else if p0 < 0xC2 ∨ 0xF4 < p0 then (RuneError, 1)
    else if p0 < 0xE0 then decode2 p0 t
    else if p0 < 0xF0 then decode3 p0 t
    else decode4 p0 t

/-- The UTF-8 encoding of a rune, as `utf8.EncodeRune` on a valid rune. -/
def EncodeRune (r : Nat) : Bytes :=
  if r < 0x80 then [r]
  else if r < 0x800 then [0xC0 + r / 64, 0x80 + r % 64]
  else if r < 0x10000 then [0xE0 + r / 4096, 0x80 + r / 64 % 64, 0x80 + r % 64]
  else [0xF0 + r / 262144, 0x80 + r / 4096 % 64, 0x80 + r / 64 % 64, 0x80 + r % 64]

/-- The bytes of a text given by its characters: its UTF-8 encoding. -/
def utf8 (text : List Char) : Bytes :=
  text.flatMap (fun c => EncodeRune c.toNat)

/-- The conversion `[]byte(s)` of a string literal. -/
def toBytes (s : String) : Bytes := utf8 s.toList

/-! ## The regular expression `stripAnsiRegex` (line 160) -/

/-- Regular expressions as far as `stripAnsiRegex` uses them: a class of runes,
the empty expression, concatenation, alternation that prefers its left branch,
and the greedy star. -/
inductive Regex where
  | cls (p : Nat → Bool)
  | empty
  | seq (a b : Regex)
  | alt (a b : Regex)
  | star (a : Regex)

/-- The greedy star of a one-step matcher `f`: every way of iterating `f`, more
iterations first.  An iteration that consumes nothing is dropped. -/
def starAux (f : Bytes → List Bytes) : Nat → Bytes → List Bytes
  | 0, s => [s]
  | n + 1, s =>
    ((f s).filter (fun t => decide (t.length < s.length))).flatMap (starAux f n) ++ [s]

/-- All the ways an expression matches at the start of `s`, each given by the
input that is left, in the order a backtracking search finds them.  Go's regexp
returns the first of them (leftmost-first matching).  A class reads one rune
with `DecodeRune` and fails at the end of the input. -/
def Regex.run : Regex → Bytes → List Bytes
  | Regex.cls p, s =>
    if (DecodeRune s).2 = 0 then []
    else if p (DecodeRune s).1 then [s.drop (DecodeRune s).2] else []
  | Regex.empty, s => [s]
  | Regex.seq a b, s => (a.run s).flatMap b.run
  | Regex.alt a b, s => a.run s ++ b.run s
  | Regex.star a, s => starAux a.run s.length s

/-- The greedy `x?`. -/
def Regex.quest (r : Regex) : Regex := Regex.alt r Regex.empty

/-- The greedy `x{0,n}`, which Go's regexp parser expands to nested `(x(x...)?)?`. -/
def Regex.upTo : Nat → Regex → Regex
  | 0, _ => Regex.empty
  | n + 1, r => Regex.quest (Regex.seq r (Regex.upTo n r))

/-- The character U+001B. -/
def ESC : Char := Char.ofNat 0x1B

/-- The character U+009B. -/
def CSI : Char := Char.ofNat 0x9B

/-- The character U+0007. -/
def BEL : Char := Char.ofNat 0x07

/-- The class `\d`. -/
def isDigit (r : Nat) : Bool := decide ('0'.toNat ≤ r ∧ r ≤ '9'.toNat)

/-- The class `[\u001B\u009B]`. -/
def isIntroducer (r : Nat) : Bool := decide (r = ESC.toNat ∨ r = CSI.toNat)

/-- The class `[[\]()#;?]`. -/
def isIntermediate (r : Nat) : Bool :=
  decide (r = '['.toNat ∨ r = ']'.toNat ∨ r = '('.toNat ∨ r = ')'.toNat ∨ r = '#'.toNat
    ∨ r = ';'.toNat ∨ r = '?'.toNat)

/-- The class `[a-zA-Z\d]`. -/
def isAlnum (r : Nat) : Bool :=
  decide (('a'.toNat ≤ r ∧ r ≤ 'z'.toNat) ∨ ('A'.toNat ≤ r ∧ r ≤ 'Z'.toNat)) || isDigit r

/-- The class `[\dA-PRZcf-ntqry=><~]`. -/
def isFinal (r : Nat) : Bool :=
  isDigit r || decide (('A'.toNat ≤ r ∧ r ≤ 'P'.toNat) ∨ r = 'R'.toNat ∨ r = 'Z'.toNat
    ∨ r = 'c'.toNat ∨ ('f'.toNat ≤ r ∧ r ≤ 'n'.toNat) ∨ r = 't'.toNat ∨ r = 'q'.toNat
    ∨ r = 'r'.toNat ∨ r = 'y'.toNat ∨ r = '='.toNat ∨ r = '>'.toNat ∨ r = '<'.toNat
    ∨ r = '~'.toNat)

/-- The class of the semicolon. -/
def isSemicolon (r : Nat) : Bool := decide (r = ';'.toNat)

/-- The class of `\u0007`. -/
def isBell (r : Nat) : Bool := decide (r = BEL.toNat)

/-- The branch `(?:[a-zA-Z\d]*(?:;[a-zA-Z\d]*)*)?\u0007`. -/
def stringBranch : Regex :=
  Regex.seq
    (Regex.quest (Regex.seq (Regex.star (Regex.cls isAlnum))
      (Regex.star (Regex.seq (Regex.cls isSemicolon) (Regex.star (Regex.cls isAlnum))))))
    (Regex.cls isBell)

/-- The branch `(?:\d{1,4}(?:;\d{0,4})*)?[\dA-PRZcf-ntqry=><~]`. -/
def controlBranch : Regex :=
  Regex.seq
    (Regex.quest (Regex.seq (Regex.seq (Regex.cls isDigit) (Regex.upTo 3 (Regex.cls isDigit)))
      (Regex.star (Regex.seq (Regex.cls isSemicolon) (Regex.upTo 4 (Regex.cls isDigit))))))
    (Regex.cls isFinal)

/-- The expression compiled at line 160. -/
def stripAnsiRegex : Regex :=
  Regex.seq (Regex.cls isIntroducer)
    (Regex.seq (Regex.star (Regex.cls isIntermediate)) (Regex.alt stringBranch controlBranch))

/-- Auxiliary of `ReplaceAll`, with a bound on the number of steps. -/
def replaceAllAux (re : Regex) : Nat → Bytes → Bytes
  | 0, s => s
  | _ + 1, [] => []
  | n + 1, c :: t =>
    match (re.run (c :: t)).head? with
    | some rest =>
      if rest.length < (c :: t).length then replaceAllAux re n rest
      else (c :: t).take (DecodeRune (c :: t)).2 ++
        replaceAllAux re n ((c :: t).drop (DecodeRune (c :: t)).2)
    | none => (c :: t).take (DecodeRune (c :: t)).2 ++
        replaceAllAux re n ((c :: t).drop (DecodeRune (c :: t)).2)

/-- The call `re.ReplaceAll(src, []byte(""))`: the leftmost match is searched
from the current position, removed, and the search goes on behind it; a rune
at which nothing matches is copied with all its bytes. -/
def ReplaceAll (re : Regex) (src : Bytes) : Bytes :=
  replaceAllAux re src.length src

/-! ## The line matcher `onConsoleOutput` (lines 164-212) -/

/-- A done matcher of package remote.  The type is declared outside this file;
its methods `Matches` and `String` are taken as given. -/
structure OutputLineMatcher where
  Matches : Bytes → Bool
  String : String

/-- The stop directive of a process configuration; the Go string `Value` is
given by its bytes. -/
structure ProcessStopConfiguration where
  Typ : String
  Value : Bytes

/-- The startup part of a process configuration. -/
structure StartupConfiguration where
  Done : List OutputLineMatcher
  StripAnsi : Bool

/-- The process configuration returned by `s.ProcessConfiguration()`. -/
structure ProcessConfiguration where
  Startup : StartupConfiguration
  Stop : ProcessStopConfiguration

/-- Modelled from the spec: the constant remote.ProcessStopCommand, declared
outside the sources; it is the stop type that asks for a literal command
comparison. -/
def ProcessStopCommand : String := "command"

/-- The loop over the done lines (lines 184-199). -/
def doneLoop (v : Bytes) : List OutputLineMatcher → World σ → World σ
  | [], w => w
  | l :: ls, w =>
    if !l.Matches v then doneLoop v ls w
    else (w.emit (Effect.LogMatch l.String v)).SetState ProcessRunningState

/-- Lines 173-200: the copy `v` of the data, reassigned to the stripped line
when the server is starting and StripAnsi is set, and the done detection.
Answers the value of `v` afterwards. -/
def startingBlock (pc : ProcessConfiguration) (data : Bytes) (w : World σ) :
    Bytes × World σ :=
  let v := data
  if w.state = ProcessStartingState then
    let v := if pc.Startup.StripAnsi then ReplaceAll stripAnsiRegex v else v
    (v, doneLoop v pc.Startup.Done w)
  else (v, w)

/-- Lines 205-211: the stop check on `v`; `bytes.Equal` is equality of the two
lists of bytes. -/
def stopBlock (IsRunning : ProcessState → Bool) (pc : ProcessConfiguration) (v : Bytes)
    (w : World σ) : World σ :=
  if IsRunning w.state then
    let stop := pc.Stop
    if stop.Typ = ProcessStopCommand && v = stop.Value then
      w.SetState ProcessOfflineState
    else w
  else w

/-- The listener `onConsoleOutput`.  The method `IsRunning` is declared outside
this file and is taken as a function of the tracked process state. -/
def onConsoleOutput (IsRunning : ProcessState → Bool) (pc : ProcessConfiguration)
    (data : Bytes) (w : World σ) : World σ :=
  if w.state ≠ ProcessStartingState && !IsRunning w.state then w
  else
    let r := startingBlock pc data w
    stopBlock IsRunning pc r.1 r.2

/-- Whether `sub` occurs in `s`, as `bytes.Contains`. -/
def Contains (s sub : Bytes) : Bool :=
  s.tails.any (fun t => sub.isPrefixOf t)

/-- Modelled from the spec: a done matcher given by a literal text, which
recognises a line that contains the text.  The matcher type of package remote is
not part of the sources. -/
def literalMatcher (raw : String) : OutputLineMatcher :=
  { Matches := fun v => Contains v (toBytes raw), String := raw }

/-- The parameters `p1;...;pk` of a colour sequence, separated by semicolons. -/
def joinParameters : List Bytes → Bytes
  | [] => []
  | [p] => p
  | p :: q :: ps => p ++ ';'.toNat :: joinParameters (q :: ps)

/-- An ANSI colour sequence `ESC [ p1;...;pk m`. -/
def colourSequence (ps : List Bytes) : Bytes :=
  ESC.toNat :: '['.toNat :: (joinParameters ps ++ ['m'.toNat])

/-- A parameter of a colour sequence: one to four decimal digits. -/
def isParameter (p : Bytes) : Prop :=
  1 ≤ p.length ∧ p.length ≤ 4 ∧ ∀ c ∈ p, isDigit c = true

/-- A sample throttler that counts chunks: it reports a violation from the
chunk numbered `limit` on and is throttled once a chunk was counted. -/
def countingThrottler (limit : Nat) : Throttler Nat :=
  { Increment := fun n => (n + 1, false, decide (limit ≤ n + 1)),
    Throttled := fun n => decide (1 ≤ n),
    Reset := fun _ => 0 }

/-- Number of throttle stop sequences started in a trace. -/
def stopSequencesStarted (tr : List Effect) : Nat :=
  tr.count (Effect.Go Task.throttleStop)

/-- The state transitions of a trace, in order. -/
def stateTransitions (tr : List Effect) : List ProcessState :=
  tr.filterMap (fun e => match e with
    | Effect.SetState st => some st
    | _ => none)

/-- The chunks pushed to the log sink in a trace, in order. -/
def sinkPushes (tr : List Effect) : List Bytes :=
  tr.filterMap (fun e => match e with
    | Effect.SinkPush v => some v
    | _ => none)

/-- The chunks handed to the line matcher in a trace, in order. -/
def lineMatcherCalls (tr : List Effect) : List Bytes :=
  tr.filterMap (fun e => match e with
    | Effect.Go (Task.onConsoleOutput v) => some v
    | _ => none)

/-- A sample of the method `IsRunning`, which is declared outside this file: a
process that reports itself running exactly in state Running. -/
def reportsRunning (st : ProcessState) : Bool :=
  decide (st = ProcessRunningState)

/-- A sample process configuration with literal done matchers and a literal
stop command. -/
def sampleConfiguration (done : List String) (strip : Bool) (stop : String) :
    ProcessConfiguration :=
  { Startup := { Done := done.map literalMatcher, StripAnsi := strip },
    Stop := { Typ := ProcessStopCommand, Value := toBytes stop } }

end server

/-! ## Theorems -/

namespace server

open ProcessState

variable {σ : Type}

/-- C5: when `onConsoleOutput` runs while the state is Offline or Stopping and
`IsRunning` reports false, it returns at once: the state and the trace are
what they were, whatever the line and the configuration. -/
theorem onConsoleOutput_ignores_when_not_running (IsRunning : ProcessState → Bool)
    (pc : ProcessConfiguration) (data : Bytes) (w : World σ)
    (hst : w.state = ProcessOfflineState ∨ w.state = ProcessStoppingState)
    (hrun : IsRunning w.state = false) :
    onConsoleOutput IsRunning pc data w = w := by
  have hne : w.state ≠ ProcessStartingState := by
    rcases hst with h | h <;> rw [h] <;> decide
  simp [onConsoleOutput, hne, hrun]

/-- Witness of C5: in state Offline the line "stop" changes nothing although it
is matched by the done matcher and equals the stop value. -/
theorem onConsoleOutput_ignores_when_not_running_witness :
    (literalMatcher "stop").Matches (toBytes "stop") = true ∧
    (toBytes "stop") = (sampleConfiguration ["stop"] false "stop").Stop.Value ∧
    onConsoleOutput reportsRunning (sampleConfiguration ["stop"] false "stop") (toBytes "stop")
      (⟨ProcessOfflineState, 0, []⟩ : World Nat) = ⟨ProcessOfflineState, 0, []⟩ :=
  ⟨by decide, by decide,
    onConsoleOutput_ignores_when_not_running reportsRunning _ _ _ (Or.inl rfl) (by decide)⟩

/-- C2: when `onConsoleOutput` runs in state Running with `IsRunning` true, the
state afterwards is Offline if and only if the stop type is the command type
and the line is byte for byte the stop value; otherwise nothing changes and
the state is still Running. -/
theorem onConsoleOutput_running_stop_check (IsRunning : ProcessState → Bool)
    (pc : ProcessConfiguration) (data : Bytes) (w : World σ)
    (hst : w.state = ProcessRunningState) (hrun : IsRunning ProcessRunningState = true) :
    ((onConsoleOutput IsRunning pc data w).state = ProcessOfflineState ↔
      (pc.Stop.Typ = ProcessStopCommand ∧ data = pc.Stop.Value)) ∧
    (¬ (pc.Stop.Typ = ProcessStopCommand ∧ data = pc.Stop.Value) →
      onConsoleOutput IsRunning pc data w = w ∧
      (onConsoleOutput IsRunning pc data w).state = ProcessRunningState) := by
  by_cases hc : pc.Stop.Typ = ProcessStopCommand ∧ data = pc.Stop.Value
  · simp [onConsoleOutput, startingBlock, stopBlock, hst, hrun, hc, World.SetState]
  · have hc2 : ¬ (pc.Stop.Typ = ProcessStopCommand ∧ data = pc.Stop.Value) := hc
    simp [onConsoleOutput, startingBlock, stopBlock, hst, hrun, hc2]

/-- Witness of C2: with stop value "stop" the line "stop" gives Offline and the
line "stop now" leaves the state Running; and the line of the single byte 0x9B
leaves the state Running against the stop value of the bytes EF BF BD, the
encoding of U+FFFD, although both decode to the rune U+FFFD. -/
theorem onConsoleOutput_running_stop_check_witness :
    (onConsoleOutput reportsRunning (sampleConfiguration [] false "stop") (toBytes "stop")
      (⟨ProcessRunningState, 0, []⟩ : World Nat)).state = ProcessOfflineState ∧
    (onConsoleOutput reportsRunning (sampleConfiguration [] false "stop") (toBytes "stop now")
      (⟨ProcessRunningState, 0, []⟩ : World Nat)).state = ProcessRunningState ∧
    (DecodeRune [0x9B]).1 = (DecodeRune [0xEF, 0xBF, 0xBD]).1 ∧
    (onConsoleOutput reportsRunning
      ⟨⟨[], false⟩, ⟨ProcessStopCommand, [0xEF, 0xBF, 0xBD]⟩⟩ [0x9B]
      (⟨ProcessRunningState, 0, []⟩ : World Nat)).state = ProcessRunningState :=
  ⟨(onConsoleOutput_running_stop_check reportsRunning (sampleConfiguration [] false "stop")
      (toBytes "stop") (⟨ProcessRunningState, 0, []⟩ : World Nat) rfl (by decide)).1.2
      ⟨rfl, by decide⟩,
    ((onConsoleOutput_running_stop_check reportsRunning (sampleConfiguration [] false "stop")
      (toBytes "stop now") (⟨ProcessRunningState, 0, []⟩ : World Nat) rfl (by decide)).2
      (by decide)).2,
    by decide,
    ((onConsoleOutput_running_stop_check reportsRunning
      ⟨⟨[], false⟩, ⟨ProcessStopCommand, [0xEF, 0xBF, 0xBD]⟩⟩ [0x9B]
      (⟨ProcessRunningState, 0, []⟩ : World Nat) rfl (by decide)).2 (by decide)).2⟩

/-- C8: on a limiter that has not fired, `Trigger` publishes the disk space
warning, then makes one stop request, `WaitForStop(60, true)`, and after it
only logs the error if the request failed: the wait is 60 seconds. -/
theorem Trigger_stop_sequence (wait : WaitResult) (w : World σ) :
    (newDiskLimiter.Trigger wait w).2.trace =
      w.trace ++ [Effect.PublishConsoleOutputFromDaemon diskSpaceWarning,
        Effect.WaitForStop 60 true] ++
        (if wait.err then
          [Effect.LogError "failed to stop server after exceeding space limit!"] else []) ∧
    Effect.WaitForStop 15 true ∉ (newDiskLimiter.Trigger wait ⟨w.state, w.throttle, []⟩).2.trace := by
  cases hw : wait.err <;>
    simp [diskSpaceLimiter.Trigger, newDiskLimiter, World.emit, World.WaitForStop, hw]

/-- A violating chunk met outside Stopping sets the state to Stopping and starts
one stop sequence. -/
theorem violation_starts_stop (t : Throttler σ) (v : Bytes) (w : World σ)
    (he : (t.Increment w.throttle).2.2 = true) (hs : w.state ≠ ProcessStoppingState) :
    (processConsoleOutputEvent t v w).state = ProcessStoppingState ∧
    stopSequencesStarted (processConsoleOutputEvent t v w).trace =
      stopSequencesStarted w.trace + 1 ∧
    stateTransitions (processConsoleOutputEvent t v w).trace =
      stateTransitions w.trace ++ [ProcessStoppingState] := by
  cases h1 : (t.Increment w.throttle).2.1 <;>
    cases h2 : t.Throttled (t.Increment w.throttle).1 <;>
    simp [processConsoleOutputEvent, World.emit, World.SetState, stopSequencesStarted,
      stateTransitions, he, hs, h1, h2, List.filterMap_append]

/-- C4: a violating chunk met in a state other than Stopping sets the state to
Stopping and starts one stop sequence; met in state Stopping it starts none and
makes no transition; a chunk without violation starts none and makes no
transition.  The stop sequence publishes the stop notice and then calls
`WaitForStop` once, with the grace period and forced termination.  Two
violating chunks in a row, the first met outside Stopping, start one stop
sequence in total. -/
theorem processConsoleOutputEvent_throttle_path (t : Throttler σ) (v : Bytes) (w : World σ) :
    ((t.Increment w.throttle).2.2 = true → w.state ≠ ProcessStoppingState →
      (processConsoleOutputEvent t v w).state = ProcessStoppingState ∧
      stopSequencesStarted (processConsoleOutputEvent t v w).trace =
        stopSequencesStarted w.trace + 1 ∧
      stateTransitions (processConsoleOutputEvent t v w).trace =
        stateTransitions w.trace ++ [ProcessStoppingState]) ∧
    ((t.Increment w.throttle).2.2 = true → w.state = ProcessStoppingState →
      (processConsoleOutputEvent t v w).state = ProcessStoppingState ∧
      stopSequencesStarted (processConsoleOutputEvent t v w).trace = stopSequencesStarted w.trace ∧
      stateTransitions (processConsoleOutputEvent t v w).trace = stateTransitions w.trace) ∧
    ((t.Increment w.throttle).2.2 = false →
      (processConsoleOutputEvent t v w).state = w.state ∧
      stopSequencesStarted (processConsoleOutputEvent t v w).trace = stopSequencesStarted w.trace ∧
      stateTransitions (processConsoleOutputEvent t v w).trace = stateTransitions w.trace) ∧
    (∀ (gracePeriod : Nat) (wait : WaitResult), ∃ rest : List Effect,
      (throttleStop gracePeriod wait w).trace =
        w.trace ++ [Effect.LogWarn "stopping server instance, violating throttle limits",
          Effect.PublishConsoleOutputFromDaemon
            "Your server is being stopped for outputting too much data in a short period of time.",
          Effect.WaitForStop gracePeriod true] ++ rest ∧
      stopRequests rest = 0) ∧
    (∀ v2 : Bytes, (t.Increment w.throttle).2.2 = true →
      (t.Increment (t.Increment w.throttle).1).2.2 = true → w.state ≠ ProcessStoppingState →
      stopSequencesStarted
          (processConsoleOutputEvent t v2 (processConsoleOutputEvent t v w)).trace =
        stopSequencesStarted w.trace + 1) := by
  refine ⟨?_, ?_, ?_, ?_, ?_⟩
  · exact violation_starts_stop t v w
  · intro he hs
    cases h1 : (t.Increment w.throttle).2.1 <;>
      cases h2 : t.Throttled (t.Increment w.throttle).1 <;>
      simp [processConsoleOutputEvent, World.emit, World.SetState, stopSequencesStarted,
        stateTransitions, he, hs, h1, h2, List.filterMap_append]
  · intro he
    cases h1 : (t.Increment w.throttle).2.1 <;>
      cases h2 : t.Throttled (t.Increment w.throttle).1 <;>
      simp [processConsoleOutputEvent, World.emit, World.SetState, stopSequencesStarted,
        stateTransitions, he, h1, h2, List.filterMap_append]
  · intro gracePeriod wait
    cases hw : wait.err
    · exact ⟨[], by simp [throttleStop, World.emit, World.WaitForStop, hw], by
        simp [stopRequests]⟩
    · by_cases ho : wait.state = ProcessOfflineState
      · exact ⟨[Effect.LogError "failed to terminate environment after triggering throttle"],
          by simp [throttleStop, World.emit, World.WaitForStop, World.SetState, hw, ho],
          by simp [stopRequests]⟩
      · exact ⟨[Effect.SetState ProcessRunningState,
            Effect.LogError "failed to terminate environment after triggering throttle"],
          by simp [throttleStop, World.emit, World.WaitForStop, World.SetState, hw, ho],
          by simp [stopRequests]⟩
  · intro v2 he he2 hs
    cases h1 : (t.Increment w.throttle).2.1 <;>
      cases h2 : t.Throttled (t.Increment w.throttle).1 <;>
      cases h3 : (t.Increment (t.Increment w.throttle).1).2.1 <;>
      cases h4 : t.Throttled (t.Increment (t.Increment w.throttle).1).1 <;>
      simp [processConsoleOutputEvent, World.emit, World.SetState, stopSequencesStarted,
        he, he2, hs, h1, h2, h3, h4]

/-- Witness of C4: with a throttler that reports a violation on every chunk and
the state Running, the first chunk sets the state to Stopping and the two
chunks together start one stop sequence. -/
theorem processConsoleOutputEvent_throttle_path_witness :
    (processConsoleOutputEvent (countingThrottler 1) (toBytes "a")
      (⟨ProcessRunningState, 0, []⟩ : World Nat)).state = ProcessStoppingState ∧
    stopSequencesStarted (processConsoleOutputEvent (countingThrottler 1) (toBytes "b")
      (processConsoleOutputEvent (countingThrottler 1) (toBytes "a")
        (⟨ProcessRunningState, 0, []⟩ : World Nat))).trace = stopSequencesStarted [] + 1 :=
  ⟨((processConsoleOutputEvent_throttle_path (countingThrottler 1) (toBytes "a")
      (⟨ProcessRunningState, 0, []⟩ : World Nat)).1 (by decide) (by decide)).1,
    (processConsoleOutputEvent_throttle_path (countingThrottler 1) (toBytes "a")
      (⟨ProcessRunningState, 0, []⟩ : World Nat)).2.2.2.2 (toBytes "b") (by decide) (by decide)
      (by decide)⟩

/-- C6: one call of `processConsoleOutputEvent` applies the throttler's
Increment once, hands the chunk to `onConsoleOutput` once, and pushes the
chunk, unchanged, to the sink exactly when Throttled answers false after the
Increment. -/
theorem processConsoleOutputEvent_accounting (t : Throttler σ) (v : Bytes) (w : World σ) :
    (processConsoleOutputEvent t v w).throttle = (t.Increment w.throttle).1 ∧
    (processConsoleOutputEvent t v w).trace.count Effect.Increment =
      w.trace.count Effect.Increment + 1 ∧
    lineMatcherCalls (processConsoleOutputEvent t v w).trace = lineMatcherCalls w.trace ++ [v] ∧
    sinkPushes (processConsoleOutputEvent t v w).trace =
      sinkPushes w.trace ++ (if t.Throttled (t.Increment w.throttle).1 then [] else [v]) := by
  cases h1 : (t.Increment w.throttle).2.1 <;>
    cases h2 : t.Throttled (t.Increment w.throttle).1 <;>
    cases h3 : (t.Increment w.throttle).2.2 <;>
    by_cases hs : w.state = ProcessStoppingState <;>
    simp [processConsoleOutputEvent, World.emit, World.SetState, lineMatcherCalls, sinkPushes,
      h1, h2, h3, hs, List.filterMap_append]

/-- C7: in the stop sequence of a throttle violation, a failed `WaitForStop`
met in a state other than Offline sets the state to Running, a failed one met
in state Offline leaves it Offline, and a successful one is followed by no
transition.  After a failed stop the state is not Stopping, and the next
violating chunk starts a new stop sequence. -/
theorem throttleStop_failure_reverts (gracePeriod : Nat) (wait : WaitResult) (w : World σ) :
    (wait.err = true → wait.state ≠ ProcessOfflineState →
      (throttleStop gracePeriod wait w).state = ProcessRunningState ∧
      stateTransitions (throttleStop gracePeriod wait w).trace =
        stateTransitions w.trace ++ [ProcessRunningState]) ∧
    (wait.err = true → wait.state = ProcessOfflineState →
      (throttleStop gracePeriod wait w).state = ProcessOfflineState ∧
      stateTransitions (throttleStop gracePeriod wait w).trace = stateTransitions w.trace) ∧
    (wait.err = false →
      (throttleStop gracePeriod wait w).state = wait.state ∧
      stateTransitions (throttleStop gracePeriod wait w).trace = stateTransitions w.trace) ∧
    (wait.err = true →
      (throttleStop gracePeriod wait w).state ≠ ProcessStoppingState ∧
      ∀ (t : Throttler σ) (v : Bytes),
        (t.Increment (throttleStop gracePeriod wait w).throttle).2.2 = true →
        stopSequencesStarted
            (processConsoleOutputEvent t v (throttleStop gracePeriod wait w)).trace =
          stopSequencesStarted (throttleStop gracePeriod wait w).trace + 1) := by
  refine ⟨?_, ?_, ?_, ?_⟩
  · intro he hs
    simp [throttleStop, World.emit, World.WaitForStop, World.SetState, stateTransitions, he, hs,
      List.filterMap_append]
  · intro he hs
    simp [throttleStop, World.emit, World.WaitForStop, World.SetState, stateTransitions, he, hs,
      List.filterMap_append]
  · intro he
    simp [throttleStop, World.emit, World.WaitForStop, World.SetState, stateTransitions, he,
      List.filterMap_append]
  · intro he
    have hne : (throttleStop gracePeriod wait w).state ≠ ProcessStoppingState := by
      by_cases hs : wait.state = ProcessOfflineState <;>
        simp [throttleStop, World.emit, World.WaitForStop, World.SetState, he, hs]
    refine ⟨hne, ?_⟩
    intro t v hv
    exact (violation_starts_stop t v (throttleStop gracePeriod wait w) hv hne).2.1

/-- Witness of C7: a stop that fails while the environment is still Stopping
sets the state back to Running, and one that fails in state Offline leaves
Offline. -/
theorem throttleStop_failure_reverts_witness :
    (throttleStop 15 ⟨ProcessStoppingState, true⟩
      (⟨ProcessStoppingState, 0, []⟩ : World Nat)).state = ProcessRunningState ∧
    (throttleStop 15 ⟨ProcessOfflineState, true⟩
      (⟨ProcessStoppingState, 0, []⟩ : World Nat)).state = ProcessOfflineState ∧
    (throttleStop 15 ⟨ProcessOfflineState, false⟩
      (⟨ProcessStoppingState, 0, []⟩ : World Nat)).state = ProcessOfflineState ∧
    (throttleStop 15 ⟨ProcessStoppingState, true⟩
      (⟨ProcessStoppingState, 0, []⟩ : World Nat)).state ≠ ProcessStoppingState :=
  ⟨((throttleStop_failure_reverts 15 ⟨ProcessStoppingState, true⟩
      (⟨ProcessStoppingState, 0, []⟩ : World Nat)).1 rfl (by decide)).1,
    ((throttleStop_failure_reverts 15 ⟨ProcessOfflineState, true⟩
      (⟨ProcessStoppingState, 0, []⟩ : World Nat)).2.1 rfl rfl).1,
    ((throttleStop_failure_reverts 15 ⟨ProcessOfflineState, false⟩
      (⟨ProcessStoppingState, 0, []⟩ : World Nat)).2.2.1 rfl).1,
    ((throttleStop_failure_reverts 15 ⟨ProcessStoppingState, true⟩
      (⟨ProcessStoppingState, 0, []⟩ : World Nat)).2.2.2 rfl).1⟩

/-- The done loop stops at the first matcher that matches. -/
theorem doneLoop_first_match (v : Bytes) (pre : List OutputLineMatcher) (l : OutputLineMatcher)
    (post : List OutputLineMatcher) (w : World σ)
    (hpre : ∀ m ∈ pre, m.Matches v = false) (hl : l.Matches v = true) :
    doneLoop v (pre ++ l :: post) w =
      (w.emit (Effect.LogMatch l.String v)).SetState ProcessRunningState := by
  induction pre with
  | nil => simp [doneLoop, hl]
  | cons m ms ih =>
    have hm : m.Matches v = false := hpre m (List.mem_cons_self m ms)
    have hms : ∀ x ∈ ms, x.Matches v = false := fun x hx => hpre x (List.mem_cons_of_mem m hx)
    simp [doneLoop, hm, ih hms]

/-- The done loop does nothing when no matcher matches. -/
theorem doneLoop_no_match (v : Bytes) (ls : List OutputLineMatcher) (w : World σ)
    (h : ∀ m ∈ ls, m.Matches v = false) : doneLoop v ls w = w := by
  induction ls with
  | nil => simp [doneLoop]
  | cons m ms ih =>
    have hm : m.Matches v = false := h m (List.mem_cons_self m ms)
    have hms : ∀ x ∈ ms, x.Matches v = false := fun x hx => h x (List.mem_cons_of_mem m hx)
    simp [doneLoop, hm, ih hms]

/-- A list with a matching matcher splits at its first matching matcher. -/
theorem exists_first_match (v : Bytes) (ls : List OutputLineMatcher)
    (h : ∃ m ∈ ls, m.Matches v = true) :
    ∃ (pre : List OutputLineMatcher) (l : OutputLineMatcher) (post : List OutputLineMatcher),
      ls = pre ++ l :: post ∧ (∀ m ∈ pre, m.Matches v = false) ∧ l.Matches v = true := by
  induction ls with
  | nil => simp at h
  | cons m ms ih =>
    cases hm : m.Matches v with
    | true => exact ⟨[], m, ms, by simp, by simp, hm⟩
    | false =>
      have h2 : ∃ x ∈ ms, x.Matches v = true := by
        obtain ⟨x, hx, hxm⟩ := h
        rcases List.mem_cons.mp hx with rfl | hx2
        · rw [hm] at hxm
          exact absurd hxm (by decide)
        · exact ⟨x, hx2, hxm⟩
      obtain ⟨pre, l, post, he, hp, hl⟩ := ih h2
      refine ⟨m :: pre, l, post, by simp [he], ?_, hl⟩
      intro x hx
      rcases List.mem_cons.mp hx with rfl | hx2
      · exact hm
      · exact hp x hx2

/-- The stop check makes no transition to Running. -/
theorem stopBlock_running_count (IsRunning : ProcessState → Bool) (pc : ProcessConfiguration)
    (v : Bytes) (w : World σ) :
    (stateTransitions (stopBlock IsRunning pc v w).trace).count ProcessRunningState =
      (stateTransitions w.trace).count ProcessRunningState := by
  cases hr : IsRunning w.state
  · simp [stopBlock, hr]
  · by_cases hc : pc.Stop.Typ = ProcessStopCommand ∧ v = pc.Stop.Value
    · simp [stopBlock, hr, hc, World.SetState, stateTransitions, List.filterMap_append]
    · simp [stopBlock, hr, hc]

/-- C1: when `onConsoleOutput` runs in state Starting and `v` is the line
tested (stripped when StripAnsi is set, the copy of the input otherwise): if
some done matcher matches `v`, the done detection logs the first matching
matcher of the list and sets the state to Running, once, whatever the matchers
behind it, and the whole call makes one transition to Running; if no done
matcher matches, the done detection changes nothing. -/
theorem onConsoleOutput_done_detection (IsRunning : ProcessState → Bool)
    (pc : ProcessConfiguration) (data v : Bytes) (w : World σ)
    (hst : w.state = ProcessStartingState)
    (hv : v = if pc.Startup.StripAnsi then ReplaceAll stripAnsiRegex data else data) :
    ((∃ m ∈ pc.Startup.Done, m.Matches v = true) →
      ∃ (pre : List OutputLineMatcher) (l : OutputLineMatcher) (post : List OutputLineMatcher),
        pc.Startup.Done = pre ++ l :: post ∧ (∀ m ∈ pre, m.Matches v = false) ∧
        l.Matches v = true ∧
        (startingBlock pc data w).2.state = ProcessRunningState ∧
        (startingBlock pc data w).2.trace =
          w.trace ++ [Effect.LogMatch l.String v, Effect.SetState ProcessRunningState] ∧
        (stateTransitions (onConsoleOutput IsRunning pc data w).trace).count ProcessRunningState =
          (stateTransitions w.trace).count ProcessRunningState + 1) ∧
    ((∀ m ∈ pc.Startup.Done, m.Matches v = false) → (startingBlock pc data w).2 = w) := by
  have hsb : (startingBlock pc data w) = (v, doneLoop v pc.Startup.Done w) := by
    simp [startingBlock, hst, hv]
  constructor
  · intro hex
    obtain ⟨pre, l, post, he, hp, hl⟩ := exists_first_match v pc.Startup.Done hex
    have hd : doneLoop v pc.Startup.Done w =
        (w.emit (Effect.LogMatch l.String v)).SetState ProcessRunningState := by
      rw [he]
      exact doneLoop_first_match v pre l post w hp hl
    refine ⟨pre, l, post, he, hp, hl, ?_, ?_, ?_⟩
    · rw [hsb, hd]
      rfl
    · rw [hsb, hd]
      simp [World.emit, World.SetState]
    · have ho : onConsoleOutput IsRunning pc data w =
          stopBlock IsRunning pc v (doneLoop v pc.Startup.Done w) := by
        simp [onConsoleOutput, hst, hsb]
      rw [ho, stopBlock_running_count, hd]
      simp [World.emit, World.SetState, stateTransitions, List.filterMap_append]
  · intro hno
    rw [hsb]
    exact doneLoop_no_match v pc.Startup.Done w hno

/-- Witness of C1: with the matchers "Ready" and "Server started" and state
Starting, the line "Server started" sets the state to Running and the line
"loading..." leaves it Starting. -/
theorem onConsoleOutput_done_detection_witness :
    (startingBlock (sampleConfiguration ["Ready", "Server started"] false "stop")
      (toBytes "Server started") (⟨ProcessStartingState, 0, []⟩ : World Nat)).2.state =
        ProcessRunningState ∧
    (startingBlock (sampleConfiguration ["Ready", "Server started"] false "stop")
      (toBytes "loading...") (⟨ProcessStartingState, 0, []⟩ : World Nat)).2 =
        ⟨ProcessStartingState, 0, []⟩ := by
  constructor
  · obtain ⟨_, _, _, _, _, _, h, _⟩ :=
      (onConsoleOutput_done_detection reportsRunning
        (sampleConfiguration ["Ready", "Server started"] false "stop") (toBytes "Server started")
        (toBytes "Server started") (⟨ProcessStartingState, 0, []⟩ : World Nat) rfl rfl).1
        ⟨literalMatcher "Server started", by simp [sampleConfiguration], by decide⟩
    exact h
  · exact (onConsoleOutput_done_detection reportsRunning
      (sampleConfiguration ["Ready", "Server started"] false "stop") (toBytes "loading...")
      (toBytes "loading...") (⟨ProcessStartingState, 0, []⟩ : World Nat) rfl rfl).2
      (by
        intro m hm
        simp [sampleConfiguration] at hm
        rcases hm with rfl | rfl <;> decide)

/-- The event loop over a concatenation. -/
theorem eventLoop_append (t : Throttler σ) (l : diskSpaceLimiter) (w : World σ)
    (xs ys : List (Event × Answers)) :
    eventLoop t l w (xs ++ ys) =
      eventLoop t (eventLoop t l w xs).1 (eventLoop t l w xs).2 ys := by
  induction xs generalizing l w with
  | nil => rfl
  | cons x xs ih =>
    obtain ⟨e, a⟩ := x
    simp [eventLoop, ih]

/-- Handling an event other than a Starting state event never raises the number
of stop requests made plus one if the limiter is still armed. -/
theorem handleEvent_budget (t : Throttler σ) (l : diskSpaceLimiter) (w : World σ) (a : Answers)
    (e : Event) (he : e ≠ Event.state ProcessStartingState) :
    stopRequests (handleEvent t l w a e).2.trace + (if (handleEvent t l w a e).1.o.done then 0 else 1) ≤
      stopRequests w.trace + (if l.o.done then 0 else 1) := by
  cases e with
  | state data =>
    have hd : data ≠ ProcessStartingState := fun h => he (by rw [h])
    simp [handleEvent, hd, World.emit, stopRequests, List.countP_append]
  | stats data =>
    cases hs : a.HasSpaceAvailable <;> cases hdone : l.o.done <;> cases hw : a.WaitForStop.err <;>
      simp [handleEvent, diskSpaceLimiter.Trigger, World.emit, World.WaitForStop, stopRequests,
        List.countP_append, List.countP_cons, hs, hdone, hw]
  | docker topic data =>
    cases topic <;> simp [handleEvent, World.emit, stopRequests, List.countP_append]

/-- Over events none of which is a Starting state event, the budget of
`handleEvent_budget` never grows. -/
theorem eventLoop_budget (t : Throttler σ) (seg : List (Event × Answers)) :
    ∀ (l : diskSpaceLimiter) (w : World σ),
      (∀ x ∈ seg, x.1 ≠ Event.state ProcessStartingState) →
      stopRequests (eventLoop t l w seg).2.trace + (if (eventLoop t l w seg).1.o.done then 0 else 1) ≤
        stopRequests w.trace + (if l.o.done then 0 else 1) := by
  induction seg with
  | nil => intro l w _; simp [eventLoop]
  | cons x xs ih =>
    intro l w h
    obtain ⟨e, a⟩ := x
    have h1 := handleEvent_budget t l w a e (h (e, a) (List.mem_cons_self _ _))
    have h2 := ih (handleEvent t l w a e).1 (handleEvent t l w a e).2
      (fun y hy => h y (List.mem_cons_of_mem _ hy))
    simp only [eventLoop]
    omega

/-- An armed limiter stays armed over events whose stats events all find disk
space available. -/
theorem eventLoop_stays_armed (t : Throttler σ) (seg : List (Event × Answers)) :
    ∀ (l : diskSpaceLimiter) (w : World σ), l.o.done = false →
      (∀ x ∈ seg, ∀ d : Stats, x.1 = Event.stats d → x.2.HasSpaceAvailable = true) →
      (eventLoop t l w seg).1.o.done = false := by
  induction seg with
  | nil => intro l w hl _; simpa [eventLoop] using hl
  | cons x xs ih =>
    intro l w hl h
    obtain ⟨e, a⟩ := x
    have hstep : (handleEvent t l w a e).1.o.done = false := by
      cases e with
      | state data =>
        by_cases hd : data = ProcessStartingState <;>
          simp [handleEvent, hd, diskSpaceLimiter.Reset, hl]
      | stats data =>
        have hs : a.HasSpaceAvailable = true := h (Event.stats data, a) (List.mem_cons_self _ _) data rfl
        simp [handleEvent, hs, hl]
      | docker topic data => cases topic <;> simp [handleEvent, hl]
    simp only [eventLoop]
    exact ih _ _ hstep (fun y hy => h y (List.mem_cons_of_mem _ hy))

/-- C3: with the handlers run one after another, the events between two
Starting state events make at most one stop request through the disk limiter,
however many stats events find no disk space; after a Starting state event,
the first stats event that finds no disk space runs the stop sequence
(warning, then WaitForStop), once; and the bound of one stop request holds
from `StartEventListeners` on until the first Starting state event. -/
theorem diskLimiter_once_per_boot (t : Throttler σ) (l : diskSpaceLimiter) (w : World σ) :
    (∀ seg : List (Event × Answers),
      (∀ x ∈ seg, x.1 ≠ Event.state ProcessStartingState) →
      stopRequests (eventLoop t l w seg).2.trace ≤ stopRequests w.trace + 1) ∧
    (∀ (a0 : Answers) (seg : List (Event × Answers)) (data : Stats) (a : Answers),
      (∀ x ∈ seg, ∀ d : Stats, x.1 = Event.stats d → x.2.HasSpaceAvailable = true) →
      a.HasSpaceAvailable = false →
      (eventLoop t l w ((Event.state ProcessStartingState, a0) :: seg ++
          [(Event.stats data, a)])).2.trace =
        (eventLoop t l w ((Event.state ProcessStartingState, a0) :: seg)).2.trace ++
          [Effect.SetStats data, Effect.PublishConsoleOutputFromDaemon diskSpaceWarning,
            Effect.WaitForStop 60 true] ++
          (if a.WaitForStop.err then
            [Effect.LogError "failed to stop server after exceeding space limit!"] else []) ++
          [Effect.PublishStats] ∧
      stopRequests (eventLoop t l w ((Event.state ProcessStartingState, a0) :: seg ++
          [(Event.stats data, a)])).2.trace =
        stopRequests (eventLoop t l w ((Event.state ProcessStartingState, a0) :: seg)).2.trace
          + 1) ∧
    (∀ seg : List (Event × Answers),
      (∀ x ∈ seg, x.1 ≠ Event.state ProcessStartingState) →
      stopRequests (StartEventListeners t w seg).2.trace ≤ stopRequests w.trace + 1) := by
  refine ⟨?_, ?_, ?_⟩
  · intro seg h
    have := eventLoop_budget t seg l w h
    split at this <;> split at this <;> omega
  · intro a0 seg data a hseg ha
    have harm : (eventLoop t l w ((Event.state ProcessStartingState, a0) :: seg)).1.o.done
        = false := by
      simp only [eventLoop]
      exact eventLoop_stays_armed t seg _ _ (by simp [handleEvent, diskSpaceLimiter.Reset]) hseg
    have happ : (Event.state ProcessStartingState, a0) :: seg ++ [(Event.stats data, a)] =
        ((Event.state ProcessStartingState, a0) :: seg) ++ [(Event.stats data, a)] := rfl
    rw [happ, eventLoop_append]
    generalize eventLoop t l w ((Event.state ProcessStartingState, a0) :: seg) = r at harm ⊢
    cases hw : a.WaitForStop.err <;>
      simp [eventLoop, handleEvent, diskSpaceLimiter.Trigger, World.emit, World.WaitForStop,
        stopRequests, List.countP_append, List.countP_cons, ha, harm, hw]
  · intro seg h
    have := eventLoop_budget t seg newDiskLimiter
      (w.emit (Effect.LogDebug "registering event listeners: console, state, resources...")) h
    simp only [StartEventListeners]
    simp only [World.emit, stopRequests, List.countP_append, List.countP_cons, List.countP_nil,
      newDiskLimiter] at this ⊢
    split at this <;> simp at this <;> omega

/-- Witness of C3: two stats events without disk space make one stop request on
a fresh limiter, and after a Starting event and a stats event with space the
next stats event without space makes one more. -/
theorem diskLimiter_once_per_boot_witness :
    stopRequests (eventLoop (countingThrottler 1) newDiskLimiter
      (⟨ProcessRunningState, 0, []⟩ : World Nat)
      [(Event.stats ⟨1⟩, ⟨false, ⟨ProcessRunningState, true⟩⟩),
        (Event.stats ⟨2⟩, ⟨false, ⟨ProcessRunningState, true⟩⟩)]).2.trace ≤
      stopRequests [] + 1 ∧
    stopRequests (eventLoop (countingThrottler 1) ⟨⟨true⟩⟩
      (⟨ProcessRunningState, 0, []⟩ : World Nat)
      ((Event.state ProcessStartingState, ⟨true, ⟨ProcessStartingState, false⟩⟩) ::
        [(Event.stats ⟨1⟩, ⟨true, ⟨ProcessStartingState, false⟩⟩)] ++
        [(Event.stats ⟨2⟩, ⟨false, ⟨ProcessOfflineState, false⟩⟩)])).2.trace =
      stopRequests (eventLoop (countingThrottler 1) ⟨⟨true⟩⟩
        (⟨ProcessRunningState, 0, []⟩ : World Nat)
        ((Event.state ProcessStartingState, ⟨true, ⟨ProcessStartingState, false⟩⟩) ::
          [(Event.stats ⟨1⟩, ⟨true, ⟨ProcessStartingState, false⟩⟩)])).2.trace + 1 :=
  ⟨(diskLimiter_once_per_boot (countingThrottler 1) newDiskLimiter
      (⟨ProcessRunningState, 0, []⟩ : World Nat)).1 _ (by decide),
    ((diskLimiter_once_per_boot (countingThrottler 1) ⟨⟨true⟩⟩
      (⟨ProcessRunningState, 0, []⟩ : World Nat)).2.1 ⟨true, ⟨ProcessStartingState, false⟩⟩
      [(Event.stats ⟨1⟩, ⟨true, ⟨ProcessStartingState, false⟩⟩)] ⟨2⟩
      ⟨false, ⟨ProcessOfflineState, false⟩⟩ (by simp) rfl).2⟩

/-- C9, as stated, fails: in state Starting with StripAnsi set, the done matcher
"stop" and the stop value "stop", the line ESC[32mstopESC[0m reaches the stop
check, the bytes compared there are the stripped line "stop" and not the
input, and the state ends Offline although the input differs from the stop
value. -/
theorem onConsoleOutput_stop_operand_stripped :
    (startingBlock (sampleConfiguration ["stop"] true "stop")
      (ESC.toNat :: toBytes "[32mstop" ++ ESC.toNat :: toBytes "[0m")
      (⟨ProcessStartingState, 0, []⟩ : World Nat)).1 = (toBytes "stop") ∧
    (startingBlock (sampleConfiguration ["stop"] true "stop")
      (ESC.toNat :: toBytes "[32mstop" ++ ESC.toNat :: toBytes "[0m")
      (⟨ProcessStartingState, 0, []⟩ : World Nat)).1 ≠
        ESC.toNat :: toBytes "[32mstop" ++ ESC.toNat :: toBytes "[0m" ∧
    reportsRunning (startingBlock (sampleConfiguration ["stop"] true "stop")
      (ESC.toNat :: toBytes "[32mstop" ++ ESC.toNat :: toBytes "[0m")
      (⟨ProcessStartingState, 0, []⟩ : World Nat)).2.state = true ∧
    (sampleConfiguration ["stop"] true "stop").Stop.Typ = ProcessStopCommand ∧
    ESC.toNat :: toBytes "[32mstop" ++ ESC.toNat :: toBytes "[0m" ≠
      (sampleConfiguration ["stop"] true "stop").Stop.Value ∧
    (onConsoleOutput reportsRunning (sampleConfiguration ["stop"] true "stop")
      (ESC.toNat :: toBytes "[32mstop" ++ ESC.toNat :: toBytes "[0m")
      (⟨ProcessStartingState, 0, []⟩ : World Nat)).state = ProcessOfflineState := by
  refine ⟨?_, ?_, ?_, ?_, ?_, ?_⟩ <;> decide

/-- C9, amended: in an invocation that passes the guard, the bytes compared with
the stop value are the working copy `v`: the stripped line when the invocation
begins in state Starting with StripAnsi set, the input otherwise.  The last
step of the call is a transition to Offline exactly when `IsRunning` holds
after the done detection, the stop type is the command type and `v` equals the
stop value. -/
theorem onConsoleOutput_stop_operand (IsRunning : ProcessState → Bool)
    (pc : ProcessConfiguration) (data : Bytes) (w : World σ)
    (hguard : w.state = ProcessStartingState ∨ IsRunning w.state = true) :
    (startingBlock pc data w).1 =
      (if w.state = ProcessStartingState ∧ pc.Startup.StripAnsi = true then
        ReplaceAll stripAnsiRegex data else data) ∧
    onConsoleOutput IsRunning pc data w =
      (if IsRunning (startingBlock pc data w).2.state = true ∧
          pc.Stop.Typ = ProcessStopCommand ∧
          (if w.state = ProcessStartingState ∧ pc.Startup.StripAnsi = true then
            ReplaceAll stripAnsiRegex data else data) = pc.Stop.Value then
        (startingBlock pc data w).2.SetState ProcessOfflineState
      else (startingBlock pc data w).2) := by
  have hv : (startingBlock pc data w).1 =
      (if w.state = ProcessStartingState ∧ pc.Startup.StripAnsi = true then
        ReplaceAll stripAnsiRegex data else data) := by
    by_cases hs : w.state = ProcessStartingState <;>
      cases hstrip : pc.Startup.StripAnsi <;> simp [startingBlock, hs, hstrip]
  refine ⟨hv, ?_⟩
  have hg : (w.state ≠ ProcessStartingState && !IsRunning w.state) = false := by
    rcases hguard with h | h <;> simp [h]
  rw [← hv]
  simp only [onConsoleOutput, hg, stopBlock]
  cases hr : IsRunning (startingBlock pc data w).2.state <;>
    by_cases ht : pc.Stop.Typ = ProcessStopCommand <;>
    by_cases he : (startingBlock pc data w).1 = pc.Stop.Value <;>
    simp [hr, ht, he]

/-- Witness of C9 amended: in state Running the line ESC[0mstop is compared
unstripped and the state stays Running. -/
theorem onConsoleOutput_stop_operand_witness :
    (startingBlock (sampleConfiguration [] true "stop") (ESC.toNat :: toBytes "[0mstop")
      (⟨ProcessRunningState, 0, []⟩ : World Nat)).1 = ESC.toNat :: toBytes "[0mstop" ∧
    (onConsoleOutput reportsRunning (sampleConfiguration [] true "stop")
      (ESC.toNat :: toBytes "[0mstop") (⟨ProcessRunningState, 0, []⟩ : World Nat)).state =
        ProcessRunningState := by
  have h := onConsoleOutput_stop_operand reportsRunning (sampleConfiguration [] true "stop")
    (ESC.toNat :: toBytes "[0mstop") (⟨ProcessRunningState, 0, []⟩ : World Nat) (Or.inr (by decide))
  refine ⟨by rw [h.1]; decide, ?_⟩
  rw [h.2]
  decide

/-! ### Runes and the stripping of colour sequences -/


/-- An ASCII byte is a rune of width 1. -/
theorem DecodeRune_ascii (b : Nat) (t : Bytes) (h : b < 0x80) : DecodeRune (b :: t) = (b, 1) := by
  simp [DecodeRune, h]

/-- The width answered behind a two-byte lead is at least 1 and within the input. -/
theorem decode2_size (p0 : Nat) (t : Bytes) : 1 ≤ (decode2 p0 t).2 ∧ (decode2 p0 t).2 ≤ t.length + 1 := by
  cases t with
  | nil => simp [decode2]
  | cons b1 t => simp only [decode2]; split_ifs <;> simp

/-- The width answered behind a three-byte lead is at least 1 and within the input. -/
theorem decode3_size (p0 : Nat) (t : Bytes) : 1 ≤ (decode3 p0 t).2 ∧ (decode3 p0 t).2 ≤ t.length + 1 := by
  rcases t with _ | ⟨b1, _ | ⟨b2, t⟩⟩
  · simp [decode3]
  · simp [decode3]
  · simp only [decode3]; split_ifs <;> simp

/-- The width answered behind a four-byte lead is at least 1 and within the input. -/
theorem decode4_size (p0 : Nat) (t : Bytes) : 1 ≤ (decode4 p0 t).2 ∧ (decode4 p0 t).2 ≤ t.length + 1 := by
  rcases t with _ | ⟨b1, _ | ⟨b2, _ | ⟨b3, t⟩⟩⟩
  · simp [decode4]
  · simp [decode4]
  · simp [decode4]
  · simp only [decode4]; split_ifs <;> simp

/-- On a non-empty input the width of the first rune is at least 1 and within
the input. -/
theorem DecodeRune_size (p0 : Nat) (t : Bytes) :
    1 ≤ (DecodeRune (p0 :: t)).2 ∧ (DecodeRune (p0 :: t)).2 ≤ (p0 :: t).length := by
  simp only [DecodeRune, List.length_cons]
  split_ifs
  · simp
  · simp
  · exact decode2_size p0 t
  · exact decode3_size p0 t
  · exact decode4_size p0 t

/-- An ASCII rune is decoded from its own byte only. -/
theorem DecodeRune_ascii_inv (p0 : Nat) (t : Bytes) (h : (DecodeRune (p0 :: t)).1 < 0x80) :
    DecodeRune (p0 :: t) = (p0, 1) := by
  simp only [DecodeRune] at h ⊢
  split_ifs at h ⊢ with h1 h2 h3 h4
  · rfl
  · simp [RuneError] at h
  · exfalso
    cases t with
    | nil => simp [decode2, RuneError] at h
    | cons b1 t =>
      simp only [decode2] at h
      split_ifs at h
      · simp at h; omega
      · simp [RuneError] at h
  · exfalso
    rcases t with _ | ⟨b1, _ | ⟨b2, t⟩⟩
    · simp [decode3, RuneError] at h
    · simp [decode3, RuneError] at h
    · simp only [decode3] at h
      split_ifs at h with h5 h6 h7 <;> simp [RuneError] at h <;> omega
  · exfalso
    rcases t with _ | ⟨b1, _ | ⟨b2, _ | ⟨b3, t⟩⟩⟩
    · simp [decode4, RuneError] at h
    · simp [decode4, RuneError] at h
    · simp [decode4, RuneError] at h
    · simp only [decode4] at h
      split_ifs at h with h5 h6 h7 <;> simp [RuneError] at h <;> omega

/-- Decoding the encoding of a character gives the character and the width of
the encoding. -/
theorem DecodeRune_EncodeRune (c : Char) (rest : Bytes) :
    DecodeRune (EncodeRune c.toNat ++ rest) = (c.toNat, (EncodeRune c.toNat).length) := by
  have hv : c.toNat < 0xD800 ∨ (0xDFFF < c.toNat ∧ c.toNat < 0x110000) := c.valid
  generalize c.toNat = r at hv
  unfold EncodeRune
  split_ifs with h1 h2 h3
  · simp [DecodeRune, h1]
  · have a1 : ¬ (0xC0 + r / 64 < 0x80) := by omega
    have a2 : ¬ (0xC0 + r / 64 < 0xC2 ∨ 0xF4 < 0xC0 + r / 64) := by omega
    have a3 : 0xC0 + r / 64 < 0xE0 := by omega
    have a4 : 0x80 ≤ 0x80 + r % 64 ∧ 0x80 + r % 64 ≤ 0xBF := by omega
    simp [DecodeRune, decode2, isContinuation, a1, a2, a3, a4]
    omega
  · have a1 : ¬ (0xE0 + r / 4096 < 0x80) := by omega
    have a2 : ¬ (0xE0 + r / 4096 < 0xC2 ∨ 0xF4 < 0xE0 + r / 4096) := by omega
    have a3 : ¬ (0xE0 + r / 4096 < 0xE0) := by omega
    have a4 : 0xE0 + r / 4096 < 0xF0 := by omega
    have a5 : (if 0xE0 + r / 4096 = 0xE0 then 0xA0 else 0x80) ≤ 0x80 + r / 64 % 64 ∧
        0x80 + r / 64 % 64 ≤ (if 0xE0 + r / 4096 = 0xED then 0x9F else 0xBF) ∧
        isContinuation (0x80 + r % 64) = true := by
      refine ⟨?_, ?_, ?_⟩
      · split_ifs <;> omega
      · split_ifs <;> omega
      · simp [isContinuation]; omega
    simp only [List.cons_append, List.nil_append, DecodeRune, decode3, a1, a2, a3, a4,
      if_true, if_false]
    rw [if_pos a5]
    simp
    omega
  · have a1 : ¬ (0xF0 + r / 262144 < 0x80) := by omega
    have a2 : ¬ (0xF0 + r / 262144 < 0xC2 ∨ 0xF4 < 0xF0 + r / 262144) := by omega
    have a3 : ¬ (0xF0 + r / 262144 < 0xE0) := by omega
    have a4 : ¬ (0xF0 + r / 262144 < 0xF0) := by omega
    have a5 : (if 0xF0 + r / 262144 = 0xF0 then 0x90 else 0x80) ≤ 0x80 + r / 4096 % 64 ∧
        0x80 + r / 4096 % 64 ≤ (if 0xF0 + r / 262144 = 0xF4 then 0x8F else 0xBF) ∧
        isContinuation (0x80 + r / 64 % 64) = true ∧ isContinuation (0x80 + r % 64) = true := by
      refine ⟨?_, ?_, ?_, ?_⟩
      · split_ifs <;> omega
      · split_ifs <;> omega
      · simp [isContinuation]; omega
      · simp [isContinuation]; omega
    simp only [List.cons_append, List.nil_append, DecodeRune, decode4, a1, a2, a3, a4,
      if_true, if_false]
    rw [if_pos a5]
    simp
    omega

/-- An ASCII byte occurs in the encoding of a rune only as that rune. -/
theorem mem_EncodeRune_ascii (r b : Nat) (hb : b ∈ EncodeRune r) (h : b < 0x80) : b = r := by
  unfold EncodeRune at hb
  split_ifs at hb <;> simp at hb <;> omega


/-- The encoding of a rune is not empty. -/
theorem EncodeRune_ne_nil (r : Nat) : EncodeRune r ≠ [] := by
  unfold EncodeRune
  split_ifs <;> simp

/-- A class applied to an input that starts with an accepted ASCII byte. -/
theorem run_cls_cons_pos (p : Nat → Bool) (b : Nat) (t : Bytes) (hb : b < 0x80)
    (h : p b = true) : (Regex.cls p).run (b :: t) = [t] := by
  simp [Regex.run, DecodeRune_ascii b t hb, h]

/-- A class applied to an input that starts with a rejected ASCII byte. -/
theorem run_cls_cons_neg (p : Nat → Bool) (b : Nat) (t : Bytes) (hb : b < 0x80)
    (h : p b = false) : (Regex.cls p).run (b :: t) = [] := by
  simp [Regex.run, DecodeRune_ascii b t hb, h]

/-- A class fails at the encoding of a character it rejects. -/
theorem run_cls_encode_neg (p : Nat → Bool) (c : Char) (rest : Bytes)
    (h : p c.toNat = false) : (Regex.cls p).run (EncodeRune c.toNat ++ rest) = [] := by
  simp [Regex.run, DecodeRune_EncodeRune c rest, h]

/-- A class of ASCII runes fails on an input none of whose bytes it accepts. -/
theorem run_cls_eq_nil (p : Nat → Bool) (hp : ∀ r, p r = true → r < 0x80) (s : Bytes)
    (h : ∀ b ∈ s, p b = false) : (Regex.cls p).run s = [] := by
  cases s with
  | nil => simp [Regex.run, DecodeRune]
  | cons p0 t =>
    cases hr : p (DecodeRune (p0 :: t)).1 with
    | false => simp [Regex.run, hr]
    | true =>
      have hd := DecodeRune_ascii_inv p0 t (hp _ hr)
      rw [hd] at hr
      rw [h p0 (List.mem_cons_self p0 t)] at hr
      exact absurd hr (by decide)

/-- Whatever is left after a match consists of bytes of the input. -/
theorem starAux_subset (f : Bytes → List Bytes)
    (hf : ∀ s t : Bytes, t ∈ f s → ∀ c ∈ t, c ∈ s) :
    ∀ (n : Nat) (s t : Bytes), t ∈ starAux f n s → ∀ c ∈ t, c ∈ s := by
  intro n
  induction n with
  | zero =>
    intro s t ht c hc
    simp [starAux] at ht
    rw [ht] at hc
    exact hc
  | succ n ih =>
    intro s t ht c hc
    simp only [starAux, List.mem_append, List.mem_flatMap, List.mem_filter,
      List.mem_singleton] at ht
    rcases ht with ⟨u, ⟨hu, _⟩, htu⟩ | rfl
    · exact hf s u hu c (ih u t htu c hc)
    · exact hc

/-- Whatever is left after a match consists of bytes of the input. -/
theorem run_subset (r : Regex) : ∀ s t : Bytes, t ∈ r.run s → ∀ c ∈ t, c ∈ s := by
  induction r with
  | cls p =>
    intro s t ht c hc
    simp only [Regex.run] at ht
    split_ifs at ht
    · simp at ht
    · rw [List.mem_singleton.mp ht] at hc
      exact List.mem_of_mem_drop hc
    · simp at ht
  | empty =>
    intro s t ht c hc
    simp [Regex.run] at ht
    rw [ht] at hc
    exact hc
  | seq a b iha ihb =>
    intro s t ht c hc
    simp only [Regex.run, List.mem_flatMap] at ht
    obtain ⟨u, hu, htu⟩ := ht
    exact iha s u hu c (ihb u t htu c hc)
  | alt a b iha ihb =>
    intro s t ht c hc
    simp only [Regex.run, List.mem_append] at ht
    rcases ht with h | h
    · exact iha s t h c hc
    · exact ihb s t h c hc
  | star a iha =>
    intro s t ht c hc
    simp only [Regex.run] at ht
    exact starAux_subset a.run iha s.length s t ht c hc

/-- Unfolding of a concatenation. -/
theorem run_seq (a b : Regex) (s : Bytes) : (Regex.seq a b).run s = (a.run s).flatMap b.run := by
  simp [Regex.run]

/-- Unfolding of an alternation. -/
theorem run_alt (a b : Regex) (s : Bytes) : (Regex.alt a b).run s = a.run s ++ b.run s := by
  simp [Regex.run]

/-- Unfolding of a star. -/
theorem run_star (a : Regex) (s : Bytes) : (Regex.star a).run s = starAux a.run s.length s := by
  simp [Regex.run]

/-- The branch that ends in BEL fails on an input without the byte of BEL. -/
theorem stringBranch_run_eq_nil (s : Bytes) (h : BEL.toNat ∉ s) : stringBranch.run s = [] := by
  unfold stringBranch
  rw [run_seq, List.flatMap_eq_nil_iff]
  intro t ht
  apply run_cls_eq_nil
  · intro r hr
    simp only [isBell, decide_eq_true_eq] at hr
    rw [hr]
    decide
  · intro c hc
    have hcs : c ∈ s := run_subset _ s t ht c hc
    simp only [isBell, decide_eq_false_iff_not]
    intro hcb
    exact h (hcb ▸ hcs)

/-- First match of a concatenation. -/
theorem head_seq (a b : Regex) (s t u : Bytes) (ha : (a.run s).head? = some t)
    (hb : (b.run t).head? = some u) : ((Regex.seq a b).run s).head? = some u := by
  obtain ⟨l, hl⟩ := List.head?_eq_some_iff.mp ha
  obtain ⟨l2, hl2⟩ := List.head?_eq_some_iff.mp hb
  rw [run_seq, hl, List.flatMap_cons, hl2]
  rfl

/-- First match of an alternation whose left branch matches. -/
theorem head_alt_left (a b : Regex) (s t : Bytes) (ha : (a.run s).head? = some t) :
    ((Regex.alt a b).run s).head? = some t := by
  obtain ⟨l, hl⟩ := List.head?_eq_some_iff.mp ha
  rw [run_alt, hl]
  rfl

/-- First match of an alternation whose left branch fails. -/
theorem head_alt_right (a b : Regex) (s t : Bytes) (ha : a.run s = [])
    (hb : (b.run s).head? = some t) : ((Regex.alt a b).run s).head? = some t := by
  rw [run_alt, ha]
  simpa using hb

/-- The star does not depend on the bound once the bound covers the input. -/
theorem starAux_fuel (f : Bytes → List Bytes) :
    ∀ (n m : Nat) (s : Bytes), s.length ≤ n → s.length ≤ m → starAux f n s = starAux f m s := by
  intro n
  induction n with
  | zero =>
    intro m s hn _
    have hs : s = [] := List.length_eq_zero.mp (Nat.le_zero.mp hn)
    subst hs
    cases m with
    | zero => rfl
    | succ m => simp [starAux]
  | succ n ih =>
    intro m s hn hm
    cases m with
    | zero =>
      have hs : s = [] := List.length_eq_zero.mp (Nat.le_zero.mp hm)
      subst hs
      simp [starAux]
    | succ m =>
      simp only [starAux]
      congr 1
      have hcongr : ∀ l : List Bytes, (∀ t ∈ l, t.length < s.length) →
          l.flatMap (starAux f n) = l.flatMap (starAux f m) := by
        intro l
        induction l with
        | nil => intro _; rfl
        | cons x xs ihx =>
          intro hx
          have hx1 : x.length < s.length := hx x (List.mem_cons_self x xs)
          rw [List.flatMap_cons, List.flatMap_cons, ih m x (by omega) (by omega),
            ihx (fun t ht => hx t (List.mem_cons_of_mem x ht))]
      apply hcongr
      intro t ht
      simpa using (List.mem_filter.mp ht).2

/-- First match of a star whose body matches and consumes input. -/
theorem head_star_step (a : Regex) (s t u : Bytes) (ha : (a.run s).head? = some t)
    (hlt : t.length < s.length) (hu : ((Regex.star a).run t).head? = some u) :
    ((Regex.star a).run s).head? = some u := by
  obtain ⟨l, hl⟩ := List.head?_eq_some_iff.mp ha
  rw [run_star] at hu ⊢
  obtain ⟨n, hn⟩ : ∃ n, s.length = n + 1 := ⟨s.length - 1, by omega⟩
  rw [hn]
  simp only [starAux]
  rw [hl, List.filter_cons_of_pos (by simpa using hlt), List.flatMap_cons,
    starAux_fuel a.run n t.length t (by omega) (le_refl _)]
  obtain ⟨l2, hl2⟩ := List.head?_eq_some_iff.mp hu
  rw [hl2]
  rfl

/-- A star whose body fails matches the empty string only. -/
theorem run_star_stop (a : Regex) (s : Bytes) (ha : a.run s = []) :
    (Regex.star a).run s = [s] := by
  rw [run_star]
  cases s.length with
  | zero => rfl
  | succ n => simp [starAux, ha]

/-- A digit is an ASCII byte. -/
theorem isDigit_lt (r : Nat) (h : isDigit r = true) : r < 0x80 := by
  simp only [isDigit, decide_eq_true_eq] at h
  have h9 : '9'.toNat = 57 := by decide
  omega

/-- The expression `\d{0,n}` takes a run of at most `n` digits whole when no
digit follows it. -/
theorem head_upTo_digits (n : Nat) :
    ∀ (p rest : Bytes), p.length ≤ n → (∀ c ∈ p, isDigit c = true) →
      (Regex.cls isDigit).run rest = [] →
      (((Regex.cls isDigit).upTo n).run (p ++ rest)).head? = some rest := by
  induction n with
  | zero =>
    intro p rest hp _ _
    have hnil : p = [] := List.length_eq_zero.mp (Nat.le_zero.mp hp)
    subst hnil
    rfl
  | succ n ih =>
    intro p rest hp hd hrest
    cases p with
    | nil =>
      apply head_alt_right
      · rw [run_seq]
        simp [hrest]
      · rfl
    | cons c p =>
      have hc : isDigit c = true := hd c (List.mem_cons_self c p)
      apply head_alt_left
      apply head_seq _ _ _ (p ++ rest)
      · rw [List.cons_append, run_cls_cons_pos _ _ _ (isDigit_lt c hc) hc]
        rfl
      · exact ih p rest (by simpa using hp) (fun x hx => hd x (List.mem_cons_of_mem c hx)) hrest

/-- The expression `(?:;\d{0,4})*` takes a run of parameters, each led by a
semicolon, whole when neither a semicolon nor a digit follows it. -/
theorem head_star_parameters (ps : List Bytes) (rest : Bytes)
    (hps : ∀ p ∈ ps, isParameter p)
    (hd : (Regex.cls isDigit).run rest = [])
    (hsemi : (Regex.cls isSemicolon).run rest = []) :
    ((Regex.star (Regex.seq (Regex.cls isSemicolon)
      ((Regex.cls isDigit).upTo 4))).run
        (ps.flatMap (fun p => ';'.toNat :: p) ++ rest)).head? = some rest := by
  induction ps with
  | nil =>
    rw [List.flatMap_nil, List.nil_append, run_star_stop]
    · rfl
    · rw [run_seq, hsemi]
      rfl
  | cons p ps ih =>
    have hp : isParameter p := hps p (List.mem_cons_self p ps)
    have hnext : (Regex.cls isDigit).run (ps.flatMap (fun p => ';'.toNat :: p) ++ rest) = [] := by
      cases ps with
      | nil => simpa using hd
      | cons q qs => rfl
    apply head_star_step _ _ (ps.flatMap (fun p => ';'.toNat :: p) ++ rest)
    · simp only [List.flatMap_cons, List.cons_append, List.append_assoc]
      apply head_seq _ _ _ (p ++ (ps.flatMap (fun p => ';'.toNat :: p) ++ rest))
      · rfl
      · exact head_upTo_digits 4 p _ hp.2.1 hp.2.2 hnext
    · simp only [List.flatMap_cons, List.length_append, List.length_cons]
      omega
    · exact ih (fun q hq => hps q (List.mem_cons_of_mem p hq))

/-- The parameters of a colour sequence are the first one followed by the
others, each led by a semicolon. -/
theorem joinParameters_cons (p : Bytes) (ps : List Bytes) :
    joinParameters (p :: ps) = p ++ ps.flatMap (fun q => ';'.toNat :: q) := by
  induction ps generalizing p with
  | nil => simp [joinParameters]
  | cons q qs ih => simp [joinParameters, ih q]

/-- The branch for control sequences takes `p1;...;pk m` whole. -/
theorem head_controlBranch (ps : List Bytes) (rest : Bytes) (hps : ∀ p ∈ ps, isParameter p) :
    (controlBranch.run (joinParameters ps ++ 'm'.toNat :: rest)).head? = some rest := by
  unfold controlBranch
  apply head_seq _ _ _ ('m'.toNat :: rest)
  · cases ps with
    | nil =>
      apply head_alt_right
      · rfl
      · rfl
    | cons p ps =>
      have hp : isParameter p := hps p (List.mem_cons_self p ps)
      apply head_alt_left
      rw [joinParameters_cons, List.append_assoc]
      apply head_seq _ _ _ (ps.flatMap (fun q => ';'.toNat :: q) ++ 'm'.toNat :: rest)
      · obtain ⟨h1, h4, hd⟩ := hp
        cases p with
        | nil => simp at h1
        | cons c p =>
          have hc : isDigit c = true := hd c (List.mem_cons_self c p)
          have hnext : (Regex.cls isDigit).run
              (ps.flatMap (fun q => ';'.toNat :: q) ++ 'm'.toNat :: rest) = [] := by
            cases ps with
            | nil => rfl
            | cons q qs => rfl
          apply head_seq _ _ _ (p ++ (ps.flatMap (fun q => ';'.toNat :: q) ++ 'm'.toNat :: rest))
          · rw [List.cons_append, run_cls_cons_pos _ _ _ (isDigit_lt c hc) hc]
            rfl
          · exact head_upTo_digits 3 p _ (by simpa using h4)
              (fun x hx => hd x (List.mem_cons_of_mem c hx)) hnext
      · exact head_star_parameters ps ('m'.toNat :: rest)
          (fun q hq => hps q (List.mem_cons_of_mem p hq)) rfl rfl
  · rfl

/-- A digit is not in the class `[[\]()#;?]`. -/
theorem isIntermediate_of_isDigit (c : Nat) (h : isDigit c = true) :
    isIntermediate c = false := by
  simp only [isIntermediate, decide_eq_false_iff_not, not_or]
  refine ⟨?_, ?_, ?_, ?_, ?_, ?_, ?_⟩ <;> (intro hc; rw [hc] at h; revert h; decide)

/-- A byte that is neither a digit nor a semicolon does not occur in the
parameters of a colour sequence. -/
theorem not_mem_joinParameters (c : Nat) (hc : isDigit c = false) (hsemi : c ≠ ';'.toNat)
    (ps : List Bytes) (hps : ∀ p ∈ ps, isParameter p) : c ∉ joinParameters ps := by
  cases ps with
  | nil => simp [joinParameters]
  | cons p ps =>
    rw [joinParameters_cons]
    intro hmem
    rcases List.mem_append.mp hmem with h | h
    · have := (hps p (List.mem_cons_self p ps)).2.2 c h
      rw [hc] at this
      exact absurd this (by decide)
    · obtain ⟨q, hq, hcq⟩ := List.mem_flatMap.mp h
      rcases List.mem_cons.mp hcq with h1 | h1
      · exact hsemi h1
      · have := (hps q (List.mem_cons_of_mem p hq)).2.2 c h1
        rw [hc] at this
        exact absurd this (by decide)

/-- The intermediate class fails at the parameters of a colour sequence. -/
theorem run_isIntermediate_parameters (ps : List Bytes) (rest : Bytes)
    (hps : ∀ p ∈ ps, isParameter p) :
    (Regex.cls isIntermediate).run (joinParameters ps ++ 'm'.toNat :: rest) = [] := by
  cases ps with
  | nil => rfl
  | cons p ps =>
    obtain ⟨h1, _, hd⟩ := hps p (List.mem_cons_self p ps)
    cases p with
    | nil => simp at h1
    | cons c p =>
      have hc : isDigit c = true := hd c (List.mem_cons_self c p)
      rw [joinParameters_cons, List.cons_append, List.cons_append]
      exact run_cls_cons_neg _ _ _ (isDigit_lt c hc) (isIntermediate_of_isDigit c hc)

/-- At a colour sequence the first match of `stripAnsiRegex` is the sequence. -/
theorem head_stripAnsiRegex (ps : List Bytes) (rest : Bytes) (hps : ∀ p ∈ ps, isParameter p)
    (hbel : BEL.toNat ∉ rest) :
    (stripAnsiRegex.run (colourSequence ps ++ rest)).head? = some rest := by
  have hbody : BEL.toNat ∉ joinParameters ps ++ 'm'.toNat :: rest := by
    intro hmem
    rcases List.mem_append.mp hmem with h | h
    · exact not_mem_joinParameters BEL.toNat (by decide) (by decide) ps hps h
    · rcases List.mem_cons.mp h with h1 | h1
      · exact absurd h1 (by decide)
      · exact hbel h1
  have hshape : colourSequence ps ++ rest =
      ESC.toNat :: '['.toNat :: (joinParameters ps ++ 'm'.toNat :: rest) := by
    simp [colourSequence]
  rw [hshape]
  unfold stripAnsiRegex
  apply head_seq _ _ _ ('['.toNat :: (joinParameters ps ++ 'm'.toNat :: rest))
  · rfl
  · apply head_seq _ _ _ (joinParameters ps ++ 'm'.toNat :: rest)
    · apply head_star_step _ _ (joinParameters ps ++ 'm'.toNat :: rest)
      · rfl
      · simp
      · rw [run_star_stop _ _ (run_isIntermediate_parameters ps rest hps)]
        rfl
    · exact head_alt_right _ _ _ _ (stringBranch_run_eq_nil _ hbody)
        (head_controlBranch ps rest hps)

/-- The bound of `replaceAllAux` does not matter once it covers the input. -/
theorem replaceAllAux_fuel (re : Regex) :
    ∀ (n m : Nat) (s : Bytes), s.length ≤ n → s.length ≤ m →
      replaceAllAux re n s = replaceAllAux re m s := by
  intro n
  induction n with
  | zero =>
    intro m s hn _
    have hs : s = [] := List.length_eq_zero.mp (Nat.le_zero.mp hn)
    subst hs
    cases m <;> rfl
  | succ n ih =>
    intro m s hn hm
    cases s with
    | nil => cases m <;> rfl
    | cons c t =>
      cases m with
      | zero => simp at hm
      | succ m =>
        have hsize := DecodeRune_size c t
        have hlen : ((c :: t).drop (DecodeRune (c :: t)).2).length ≤ t.length := by
          rw [List.length_drop, List.length_cons]
          omega
        have ht : replaceAllAux re n ((c :: t).drop (DecodeRune (c :: t)).2) =
            replaceAllAux re m ((c :: t).drop (DecodeRune (c :: t)).2) :=
          ih m _ (by simp only [List.length_cons] at hn; omega)
            (by simp only [List.length_cons] at hm; omega)
        simp only [replaceAllAux]
        cases hh : (re.run (c :: t)).head? with
        | none => simp only [ht]
        | some rest =>
          by_cases hlt : rest.length < (c :: t).length
          · simp only [hlt, if_true]
            exact ih m rest (by simp at hlt hn; omega) (by simp at hlt hm; omega)
          · simp only [hlt, if_false, ht]

/-- A match at the current position is removed. -/
theorem ReplaceAll_match (re : Regex) (s rest : Bytes) (h : (re.run s).head? = some rest)
    (hlt : rest.length < s.length) : ReplaceAll re s = ReplaceAll re rest := by
  cases s with
  | nil => simp at hlt
  | cons c t =>
    unfold ReplaceAll
    simp only [List.length_cons, replaceAllAux, h]
    rw [if_pos (by simpa using hlt)]
    exact replaceAllAux_fuel re _ _ rest (by simp at hlt; omega) (le_refl _)

/-- A rune at which nothing matches is copied. -/
theorem ReplaceAll_skip (re : Regex) (s : Bytes) (hs : s ≠ []) (h : re.run s = []) :
    ReplaceAll re s =
      s.take (DecodeRune s).2 ++ ReplaceAll re (s.drop (DecodeRune s).2) := by
  cases s with
  | nil => exact absurd rfl hs
  | cons c t =>
    have hsize := DecodeRune_size c t
    unfold ReplaceAll
    simp only [List.length_cons, replaceAllAux, h, List.head?_nil]
    congr 1
    exact replaceAllAux_fuel re _ _ _ (by rw [List.length_drop, List.length_cons]; omega)
      (le_refl _)

/-- The encoding of a character at which nothing matches is copied. -/
theorem ReplaceAll_skip_char (re : Regex) (c : Char) (rest : Bytes)
    (h : re.run (EncodeRune c.toNat ++ rest) = []) :
    ReplaceAll re (EncodeRune c.toNat ++ rest) = EncodeRune c.toNat ++ ReplaceAll re rest := by
  rw [ReplaceAll_skip re _ (by simp [EncodeRune_ne_nil]) h, DecodeRune_EncodeRune c rest,
    List.take_left, List.drop_left]

/-- Text without ESC and CSI is copied by the stripping. -/
theorem ReplaceAll_text (text : List Char) (rest : Bytes)
    (h : ∀ c ∈ text, isIntroducer c.toNat = false) :
    ReplaceAll stripAnsiRegex (utf8 text ++ rest) = utf8 text ++ ReplaceAll stripAnsiRegex rest := by
  induction text with
  | nil => rfl
  | cons c t ih =>
    have hc : isIntroducer c.toNat = false := h c (List.mem_cons_self c t)
    have hrun : stripAnsiRegex.run (EncodeRune c.toNat ++ (utf8 t ++ rest)) = [] := by
      unfold stripAnsiRegex
      rw [run_seq, run_cls_encode_neg _ _ _ hc]
      rfl
    have hcons : utf8 (c :: t) = EncodeRune c.toNat ++ utf8 t := by simp [utf8]
    rw [hcons, List.append_assoc, ReplaceAll_skip_char _ _ _ hrun,
      ih (fun x hx => h x (List.mem_cons_of_mem c hx)), List.append_assoc]

/-- A character is determined by its code point. -/
theorem char_eq_of_toNat_eq (c d : Char) (h : c.toNat = d.toNat) : c = d := by
  rw [← Char.ofNat_toNat c, ← Char.ofNat_toNat d, h]

/-- The byte of BEL does not occur in the encoding of a text without BEL. -/
theorem bel_not_mem_utf8 (text : List Char) (h : BEL ∉ text) : BEL.toNat ∉ utf8 text := by
  intro hmem
  simp only [utf8, List.mem_flatMap] at hmem
  obtain ⟨c, hc, hb⟩ := hmem
  have heq : BEL.toNat = c.toNat := mem_EncodeRune_ascii c.toNat BEL.toNat hb (by decide)
  exact h (char_eq_of_toNat_eq BEL c heq ▸ hc)

/-- Stripping removes a colour sequence before and one behind a text without
ESC, CSI and BEL. -/
theorem ReplaceAll_wrapped (text : List Char) (ps qs : List Bytes)
    (hesc : ESC ∉ text) (hcsi : CSI ∉ text) (hbel : BEL ∉ text)
    (hps : ∀ p ∈ ps, isParameter p) (hqs : ∀ q ∈ qs, isParameter q) :
    ReplaceAll stripAnsiRegex (colourSequence ps ++ utf8 text ++ colourSequence qs) =
      utf8 text := by
  have hq : BEL.toNat ∉ colourSequence qs := by
    intro hmem
    simp only [colourSequence, List.mem_cons, List.mem_append, List.mem_singleton] at hmem
    rcases hmem with h | h | h | h
    · exact absurd h (by decide)
    · exact absurd h (by decide)
    · exact not_mem_joinParameters BEL.toNat (by decide) (by decide) qs hqs h
    · exact absurd h (by decide)
  have hrest : BEL.toNat ∉ utf8 text ++ colourSequence qs := by
    intro hmem
    rcases List.mem_append.mp hmem with h | h
    · exact bel_not_mem_utf8 text hbel h
    · exact hq h
  have htext : ∀ c ∈ text, isIntroducer c.toNat = false := by
    intro c hc
    simp only [isIntroducer, decide_eq_false_iff_not, not_or]
    exact ⟨fun h => hesc (char_eq_of_toNat_eq c ESC h ▸ hc),
      fun h => hcsi (char_eq_of_toNat_eq c CSI h ▸ hc)⟩
  rw [List.append_assoc,
    ReplaceAll_match _ _ _ (head_stripAnsiRegex ps (utf8 text ++ colourSequence qs) hps hrest)
      (by simp [colourSequence]; omega),
    ReplaceAll_text text _ htext]
  have hlast : ReplaceAll stripAnsiRegex (colourSequence qs) = [] := by
    have h := ReplaceAll_match stripAnsiRegex (colourSequence qs ++ []) []
      (head_stripAnsiRegex qs [] hqs (by simp)) (by simp [colourSequence])
    simpa [ReplaceAll] using h
  rw [hlast, List.append_nil]

/-- C10: for a text without the characters ESC, CSI and BEL and two colour
sequences `ESC [ p1;...;pk m` with parameters of one to four digits, removing
the matches of `stripAnsiRegex` from the bytes of sequence, text, sequence
leaves the bytes of the text.  Hence in state Starting with StripAnsi set the
line tested against the done matchers is the text, and a done matcher that
matches the text sets the state to Running. -/
theorem stripAnsi_colour_wrapped (text : List Char) (ps qs : List Bytes)
    (hesc : ESC ∉ text) (hcsi : CSI ∉ text) (hbel : BEL ∉ text)
    (hps : ∀ p ∈ ps, isParameter p) (hqs : ∀ q ∈ qs, isParameter q) :
    ReplaceAll stripAnsiRegex (colourSequence ps ++ utf8 text ++ colourSequence qs) =
      utf8 text ∧
    ∀ (pc : ProcessConfiguration) (w : World σ),
      w.state = ProcessStartingState → pc.Startup.StripAnsi = true →
      (startingBlock pc (colourSequence ps ++ utf8 text ++ colourSequence qs) w).1 =
        utf8 text ∧
      ((∃ m ∈ pc.Startup.Done, m.Matches (utf8 text) = true) →
        (startingBlock pc (colourSequence ps ++ utf8 text ++ colourSequence qs) w).2.state =
          ProcessRunningState ∧
        stateTransitions
            (startingBlock pc (colourSequence ps ++ utf8 text ++ colourSequence qs) w).2.trace =
          stateTransitions w.trace ++ [ProcessRunningState]) := by
  have hstrip := ReplaceAll_wrapped text ps qs hesc hcsi hbel hps hqs
  refine ⟨hstrip, ?_⟩
  intro pc w hst hsa
  have hsb : startingBlock pc (colourSequence ps ++ utf8 text ++ colourSequence qs) w =
      (utf8 text, doneLoop (utf8 text) pc.Startup.Done w) := by
    unfold startingBlock
    simp only [hst, hsa, if_true]
    rw [hstrip]
  rw [hsb]
  refine ⟨rfl, ?_⟩
  intro hex
  obtain ⟨pre, l, post, he, hp, hl⟩ := exists_first_match (utf8 text) pc.Startup.Done hex
  have hd : doneLoop (utf8 text) pc.Startup.Done w =
      (w.emit (Effect.LogMatch l.String (utf8 text))).SetState ProcessRunningState := by
    rw [he]
    exact doneLoop_first_match (utf8 text) pre l post w hp hl
  simp [hd, World.emit, World.SetState, stateTransitions, List.filterMap_append]

/-- Witness of C10: with StripAnsi set, state Starting and the done matcher
"Done", the line ESC[32mDoneESC[0m is stripped to "Done" and sets the state to
Running. -/
theorem stripAnsi_colour_wrapped_witness :
    colourSequence [toBytes "32"] ++ toBytes "Done" ++ colourSequence [toBytes "0"] =
      ESC.toNat :: toBytes "[32mDone" ++ ESC.toNat :: toBytes "[0m" ∧
    ReplaceAll stripAnsiRegex
      (colourSequence [toBytes "32"] ++ toBytes "Done" ++ colourSequence [toBytes "0"]) =
        toBytes "Done" ∧
    (startingBlock (sampleConfiguration ["Done"] true "stop")
      (colourSequence [toBytes "32"] ++ toBytes "Done" ++ colourSequence [toBytes "0"])
      (⟨ProcessStartingState, 0, []⟩ : World Nat)).2.state = ProcessRunningState := by
  have h := @stripAnsi_colour_wrapped Nat "Done".toList [toBytes "32"] [toBytes "0"]
    (by decide) (by decide) (by decide)
    (by intro p hp; rw [List.mem_singleton.mp hp]; exact ⟨by decide, by decide, by decide⟩)
    (by intro p hp; rw [List.mem_singleton.mp hp]; exact ⟨by decide, by decide, by decide⟩)
  refine ⟨by decide, h.1, ?_⟩
  exact ((h.2 (sampleConfiguration ["Done"] true "stop")
    (⟨ProcessStartingState, 0, []⟩ : World Nat) rfl rfl).2
    ⟨literalMatcher "Done", by simp [sampleConfiguration], by decide⟩).1

end server
